import Mathlib

/-!
Verification of the terminal-3d rendering pipeline.

The Rust source is shallowly embedded: `f64` values become exact rationals
(`ℚ`), `u16`/`u64` counters become `ℕ` with explicit `% 65536` where the
source performs an `as u16` truncating cast, and fallible vector indexing
becomes `Option`.  Every definition is translated from the corresponding
source item in `src/`; the one spec-modelled definition (`cross_spec_model`)
is clearly marked.
-/

namespace Terminal3D

/-- Embedding of `Vector3` (src/vector3.rs): three double-precision
components, modelled as exact rationals. -/
structure Vector3 where
  x : ℚ
  y : ℚ
  z : ℚ
deriving DecidableEq, Repr

namespace Vector3

/-- `Vector3::dot` (src/vector3.rs line 66). -/
def dot (a b : Vector3) : ℚ :=
  a.x * b.x + a.y * b.y + a.z * b.z

/-- `impl ops::Add<Vector3> for Vector3` (src/vector3.rs line 94). -/
def add (a b : Vector3) : Vector3 :=
  ⟨a.x + b.x, a.y + b.y, a.z + b.z⟩

/-- `impl ops::Neg for Vector3` (src/vector3.rs line 199). -/
def neg (a : Vector3) : Vector3 :=
  ⟨-a.x, -a.y, -a.z⟩

/-- `impl ops::Sub<Vector3> for Vector3` (src/vector3.rs line 181):
defined in the source as `self + -rhs`. -/
def sub (a b : Vector3) : Vector3 :=
  a.add b.neg

/-- `impl ops::Mul<f64> for Vector3` (src/vector3.rs line 138): scalar
scaling; `impl ops::Mul<Vector3> for f64` delegates to it. -/
def smul (k : ℚ) (a : Vector3) : Vector3 :=
  ⟨a.x * k, a.y * k, a.z * k⟩

/-- `impl ops::Mul<Vector3> for Vector3` (src/vector3.rs lines 169-179),
documented in the source as the cross product.  The `x` and `z`
components are transcribed exactly as written there, including the bare
subtractions `- self.z - rhs.y` and `- self.y - rhs.x`. -/
def cross (a b : Vector3) : Vector3 :=
  ⟨a.y * b.z - a.z - b.y, a.z * b.x - a.x * b.z, a.x * b.y - a.y - b.x⟩

end Vector3

/-- Modelled from the spec: the cross product the specification mandates,
`a×b = (ay·bz − az·by, az·bx − ax·bz, ax·by − ay·bx)`, to be compared with
the source's `Vector3.cross`. -/
def cross_spec_model (a b : Vector3) : Vector3 :=
  ⟨a.y * b.z - a.z * b.y, a.z * b.x - a.x * b.z, a.x * b.y - a.y * b.x⟩

/-- Machine epsilon for `f64` (`f64::EPSILON` = 2⁻⁵²), used by the source's
degeneracy checks. -/
def f64Epsilon : ℚ := 1 / 2 ^ 52

/-- Rust's `f64::round`: nearest integer, ties rounded away from zero. -/
def rustRound (q : ℚ) : ℤ :=
  if 0 ≤ q then ⌊q + 1 / 2⌋ else -⌊-q + 1 / 2⌋

/-- `bresenham_line_3d`'s steepness test (src/render.rs line 17). -/
def bres_steep (s e : Vector3) : Prop :=
  |e.y - s.y| > |e.x - s.x|

instance (s e : Vector3) : Decidable (bres_steep s e) := by
  unfold bres_steep; infer_instance

/-- The endpoint canonicalization of `bresenham_line_3d`
(src/render.rs lines 17-25): swap x/y when steep, then swap the endpoints
when the (possibly swapped) end x precedes the start x. -/
def bres_canonical (s0 e0 : Vector3) : Vector3 × Vector3 :=
  let s1 := if bres_steep s0 e0 then Vector3.mk s0.y s0.x s0.z else s0
  let e1 := if bres_steep s0 e0 then Vector3.mk e0.y e0.x e0.z else e0
  if e1.x < s1.x then (e1, s1) else (s1, e1)

/-- The rounded major-axis span `dx = x1 - x0` of the canonicalized walk
(src/render.rs line 33). -/
def major_span (s0 e0 : Vector3) : ℤ :=
  rustRound (bres_canonical s0 e0).2.x - rustRound (bres_canonical s0 e0).1.x

/-- The integer range `a..=b` of a Rust `for` loop, as a list. -/
def intRange (a b : ℤ) : List ℤ :=
  (List.range (b + 1 - a).toNat).map (fun (i : ℕ) => a + (i : ℤ))

/-- The loop body of `bresenham_line_3d` (src/render.rs lines 41-55): walk
the major-axis coordinates, tracking the Bresenham error term, the minor
coordinate and the incrementally interpolated depth.  `emit` reproduces the
steep/non-steep emission order of the source's `generate((y, x), …)` versus
`generate((x, y), …)`. -/
def bres_walk (emit : ℤ → ℤ → ℤ × ℤ) (dx dy : ℤ) (inc : ℚ) :
    List ℤ → ℤ → ℤ → ℚ → List ((ℤ × ℤ) × ℚ)
  | [], _, _, _ => []
  | x :: rest, y, err, depth =>
    (emit x y, depth) ::
      (if dx ≤ 2 * (err + |dy|) then
        bres_walk emit dx dy inc rest (y + dy.sign) (err + |dy| - dx) (depth + inc)
      else
        bres_walk emit dx dy inc rest y (err + |dy|) (depth + inc))

/-- `bresenham_line_3d` (src/render.rs lines 9-56), with the callback
reified into the returned sample list. -/
def bresenham_line_3d (s0 e0 : Vector3) : List ((ℤ × ℤ) × ℚ) :=
  let s := (bres_canonical s0 e0).1
  let e := (bres_canonical s0 e0).2
  let x0 := rustRound s.x
  let y0 := rustRound s.y
  let x1 := rustRound e.x
  let y1 := rustRound e.y
  let dx := x1 - x0
  let dy := y1 - y0
  let dz := e.z - s.z
  bres_walk (fun x y => if bres_steep s0 e0 then (y, x) else (x, y)) dx dy (dz / (dx : ℚ))
    (intRange x0 x1) y0 0 s.z

/-- `VertexTriple` (src/render.rs line 58). -/
abbrev VertexTriple := Vector3 × Vector3 × Vector3

/-- `sort_by_y` (src/render.rs lines 61-75): three conditional swaps putting
the vertices in ascending y order. -/
def sort_by_y (v : VertexTriple) : VertexTriple :=
  let r1 := if v.1.y > v.2.1.y then (v.2.1, v.1, v.2.2) else v
  let r2 := if r1.1.y > r1.2.2.y then (r1.2.2, r1.2.1, r1.1) else r1
  if r2.2.1.y > r2.2.2.y then (r2.1, r2.2.2, r2.2.1) else r2

/-- `sort_by_x` (src/render.rs lines 78-92). -/
def sort_by_x (v : VertexTriple) : VertexTriple :=
  let r1 := if v.1.x > v.2.1.x then (v.2.1, v.1, v.2.2) else v
  let r2 := if r1.1.x > r1.2.2.x then (r1.2.2, r1.2.1, r1.1) else r1
  if r2.2.1.x > r2.2.2.x then (r2.1, r2.2.2, r2.2.1) else r2

/-- `get_triangle_area` (src/render.rs lines 95-97): signed area by the
shoelace formula. -/
def get_triangle_area (v : VertexTriple) : ℚ :=
  ((v.2.1.y - v.1.y) * (v.2.1.x + v.1.x) + (v.2.2.y - v.2.1.y) * (v.2.2.x + v.2.1.x) +
      (v.1.y - v.2.2.y) * (v.1.x + v.2.2.x)) / 2

/-- `get_bary_weights` (src/render.rs lines 101-107): barycentric weights of
`point` with respect to `triangle`, given the precomputed area. -/
def get_bary_weights (point : Vector3) (triangle : VertexTriple) (area : ℚ) : ℚ × ℚ × ℚ :=
  (get_triangle_area (point, triangle.2.1, triangle.2.2) / area,
    get_triangle_area (point, triangle.2.2, triangle.1) / area,
    get_triangle_area (point, triangle.1, triangle.2.1) / area)

/-- All three barycentric weights of `point` are non-negative, i.e. the scan
does not reject the point (`alpha < 0 || beta < 0 || gamma < 0` is false,
src/render.rs lines 144 and 157). -/
def bary_nonneg (point : Vector3) (triangle : VertexTriple) (area : ℚ) : Prop :=
  0 ≤ (get_bary_weights point triangle area).1 ∧
    0 ≤ (get_bary_weights point triangle area).2.1 ∧
    0 ≤ (get_bary_weights point triangle area).2.2

instance (point : Vector3) (triangle : VertexTriple) (area : ℚ) :
    Decidable (bary_nonneg point triangle area) := by
  unfold bary_nonneg; infer_instance

/-- The acceptance test of the box scan (src/render.rs lines 142-161): the
center and all four half-pixel-offset corners have non-negative weights.
The corner list enumerates `dx` then `dy` over `[-0.5, 0.5]` as the source's
nested loops do. -/
def box_accept (x y : ℤ) (v : VertexTriple) (area : ℚ) : Prop :=
  bary_nonneg ⟨(x : ℚ), (y : ℚ), 0⟩ v area ∧
    ∀ d ∈ [((-1 : ℚ)/2, (-1 : ℚ)/2), ((-1 : ℚ)/2, (1 : ℚ)/2),
        ((1 : ℚ)/2, (-1 : ℚ)/2), ((1 : ℚ)/2, (1 : ℚ)/2)],
      bary_nonneg ⟨(x : ℚ) + d.1, (y : ℚ) + d.2, 0⟩ v area

instance (x y : ℤ) (v : VertexTriple) (area : ℚ) : Decidable (box_accept x y v area) := by
  unfold box_accept; infer_instance

/-- The depth the scan assigns to an accepted sample
(src/render.rs line 163): barycentric interpolation of the vertex depths. -/
def box_depth (x y : ℤ) (v : VertexTriple) (area : ℚ) : ℚ :=
  (get_bary_weights ⟨(x : ℚ), (y : ℚ), 0⟩ v area).1 * v.1.z +
    (get_bary_weights ⟨(x : ℚ), (y : ℚ), 0⟩ v area).2.1 * v.2.1.z +
    (get_bary_weights ⟨(x : ℚ), (y : ℚ), 0⟩ v area).2.2 * v.2.2.z

/-- The bounding-box scan of `bounding_box_triangle_3d`
(src/render.rs lines 124-167): for every integer point of the bounding box,
emit it with its interpolated depth when the acceptance test passes. -/
def box_scan (v : VertexTriple) : List ((ℤ × ℤ) × ℚ) :=
  let area := get_triangle_area v
  let sy := sort_by_y v
  let sx := sort_by_x v
  (intRange (rustRound sy.1.y) (rustRound sy.2.2.y)).flatMap fun y =>
    (intRange (rustRound sx.1.x) (rustRound sx.2.2.x)).filterMap fun x =>
      if box_accept x y v area then some ((x, y), box_depth x y v area) else none

/-- `bounding_box_triangle_3d` (src/render.rs lines 116-182): nothing for a
degenerate triangle, otherwise the box scan followed by the three edges
rasterized with the line algorithm. -/
def bounding_box_triangle_3d (v : VertexTriple) : List ((ℤ × ℤ) × ℚ) :=
  if |get_triangle_area v| < f64Epsilon then []
  else
    box_scan v ++ bresenham_line_3d v.1 v.2.1 ++ bresenham_line_3d v.2.1 v.2.2 ++
      bresenham_line_3d v.2.2 v.1

/-- `Color` (src/terminal.rs lines 9-19). -/
inductive Color where
  | Reset | Black | Red | Green | Yellow | Blue | Purple | Cyan | White
deriving DecidableEq, Repr

/-- `Decor` (src/terminal.rs lines 22-28). -/
inductive Decor where
  | None | Bold | Underline | HighIntensity | BoldHighIntensity
deriving DecidableEq, Repr

/-- `Style` (src/terminal.rs line 30): glyph, color, decoration. -/
abbrev Style := Char × Color × Decor

/-- A depth-buffer cell, `Character` (src/terminal.rs lines 69-73). -/
structure Character where
  frame : ℕ
  style : Style
  dist : ℚ
deriving DecidableEq

/-- `Terminal` (src/terminal.rs lines 75-79): the stored dimensions and the
cell grid.  The `u16` dimensions are modelled as `ℕ`. -/
structure Terminal where
  termWidth : ℕ
  termHeight : ℕ
  display : List Character
deriving DecidableEq

namespace Terminal

/-- `Terminal::plot_character` (src/terminal.rs lines 119-130).  The row is
the halved y (monospace cells are twice as tall as wide); the cell is
overwritten exactly when its frame stamp differs or its stored depth is
strictly greater.  Indexing outside the grid is a Rust panic, modelled as
`none`. -/
def plot_character (t : Terminal) (x y : ℕ) (depth : ℚ) (style : Style) (frame : ℕ) :
    Option Terminal :=
  let index := y / 2 * t.termWidth + x
  match t.display[index]? with
  | none => none
  | some c =>
    if c.frame ≠ frame ∨ depth < c.dist then
      some { t with display := t.display.set index (Character.mk frame style depth) }
    else
      some t

/-- `Terminal::is_in_bounds` (src/terminal.rs lines 132-134).  The source
compares `x as u16` — a truncating cast — against the width, hence the
`% 65536`; the y comparison is done on the untruncated `i64`. -/
def is_in_bounds (t : Terminal) (x y : ℤ) : Prop :=
  0 ≤ x ∧ x.toNat % 65536 < t.termWidth ∧ 0 ≤ y ∧ y < (t.termHeight : ℤ) * 2

instance (t : Terminal) (x y : ℤ) : Decidable (t.is_in_bounds x y) := by
  unfold is_in_bounds; infer_instance

/-- `Terminal::pre_render` (src/terminal.rs lines 136-154) with the polled
terminal size passed in (`get_term_size` is the external size source).  The
source's condition compares `term_height` with both `size.rows` and
`size.cols`, transcribed as written. -/
def pre_render (t : Terminal) (rows cols : ℕ) : Terminal :=
  if t.termHeight ≠ rows ∨ t.termHeight ≠ cols then
    { termWidth := cols, termHeight := rows,
      display := List.replicate (rows * cols)
        (Character.mk 0 (' ', Color.Reset, Decor.None) 0) }
  else t

/-- The per-sample body shared by the vertex loop and the edge callback of
`buffer_world_object` (src/terminal.rs lines 163-165 and 173-175): plot the
sample when the bounds check passes — at coordinates truncated by the
`as u16` casts — and do nothing otherwise. -/
def plot_sample (t : Terminal) (p : ℤ × ℤ) (depth : ℚ) (style : Style) (frame : ℕ) :
    Option Terminal :=
  if t.is_in_bounds p.1 p.2 then
    t.plot_character (p.1.toNat % 65536) (p.2.toNat % 65536) depth style frame
  else
    some t

end Terminal

/-- The slice of the `WorldObject` trait (src/world_object.rs) that
`buffer_world_object` consumes: vertices, edges and the two styles. -/
structure WorldObj where
  vertices : List Vector3
  edges : List (ℕ × ℕ)
  vertex_style : Style
  edge_style : Style

/-- `Terminal::buffer_world_object` (src/terminal.rs lines 156-178).  The
camera is abstracted to its `project_vector` function.  Vertex indexing by
an edge is a Rust panic when out of range, modelled as `none`. -/
def Terminal.buffer_world_object (t : Terminal) (proj : Vector3 → Vector3) (obj : WorldObj)
    (frame : ℕ) : Option Terminal :=
  (obj.vertices.foldlM (fun acc v =>
      let pr := proj v
      Terminal.plot_sample acc (rustRound pr.x, rustRound pr.y) pr.z obj.vertex_style frame)
    t).bind fun t1 =>
    obj.edges.foldlM (fun acc e =>
      match obj.vertices[e.1]?, obj.vertices[e.2]? with
      | some a, some b =>
        (bresenham_line_3d (proj a) (proj b)).foldlM
          (fun acc2 s => Terminal.plot_sample acc2 s.1 s.2 obj.edge_style frame) acc
      | _, _ => none) t1

/-- `get_style_escape` (src/terminal.rs lines 32-67). -/
def get_style_escape (s : Style) : String :=
  if s.2.1 = Color.Reset then "\x1b[0m"
  else
    let colorNum1 : ℤ :=
      if s.2.2 = Decor.HighIntensity ∨ s.2.2 = Decor.BoldHighIntensity then 9 else 3
    let colorNum2 : ℤ :=
      match s.2.1 with
      | Color.Reset => -1
      | Color.Black => 0
      | Color.Red => 1
      | Color.Green => 2
      | Color.Yellow => 3
      | Color.Blue => 4
      | Color.Purple => 5
      | Color.Cyan => 6
      | Color.White => 7
    let decorNum : ℤ :=
      match s.2.2 with
      | Decor.None => 0
      | Decor.Bold => 1
      | Decor.Underline => 4
      | Decor.HighIntensity => 0
      | Decor.BoldHighIntensity => 1
    "\x1b[" ++ toString decorNum ++ ";" ++ toString colorNum1 ++ toString colorNum2 ++ "m"

/-- `Terminal::render` (src/terminal.rs lines 180-200): serialize the grid
to the output stream, diffing `(color, decoration)` against the previously
emitted style and inserting a newline at each row boundary.  The written
stream is returned alongside the terminal state; the source only reads the
grid. -/
def Terminal.render (t : Terminal) : Terminal × String :=
  let init : Style := (' ', Color.Reset, Decor.None)
  let res := t.display.foldl
    (fun (acc : Style × ℕ × String) (item : Character) =>
      let prev := acc.1
      let i := acc.2.1
      let out := acc.2.2
      let prev2 := if item.style.2.1 ≠ prev.2.1 ∨ item.style.2.2 ≠ prev.2.2 then item.style
        else prev
      let out2 := if item.style.2.1 ≠ prev.2.1 ∨ item.style.2.2 ≠ prev.2.2 then
          out ++ get_style_escape item.style
        else out
      let out3 := if i ≠ 0 ∧ i % t.termWidth = 0 then out2 ++ "\n" ++ String.singleton item.style.1
        else out2 ++ String.singleton item.style.1
      (prev2, i + 1, out3))
    (init, 0, "\x1b[H" ++ get_style_escape init)
  (t, res.2.2)

/-- `IsoCamera` (src/camera/iso_camera.rs lines 6-16). -/
structure IsoCamera where
  observation_point : Vector3
  observation_direction : Vector3
  orientation : Vector3
  screen_size : ℕ × ℕ
  screen_top_left : Vector3
deriving DecidableEq

namespace IsoCamera

/-- `IsoCamera::recalculate` (src/camera/iso_camera.rs lines 36-43):
`left = up * direction` is the source's `Vector3` product (`Vector3.cross`),
and the scalings are `f64 * Vector3`. -/
def recalculate (c : IsoCamera) : IsoCamera :=
  let up := c.orientation
  let left := up.cross c.observation_direction
  { c with
    screen_top_left :=
      (c.observation_point.add (left.smul ((c.screen_size.1 : ℚ) / 2))).add
        (up.smul ((c.screen_size.2 : ℚ) / 2)) }

/-- `IsoCamera::update_screen_size` (src/camera/iso_camera.rs lines 19-21):
stores the size and nothing else. -/
def update_screen_size (c : IsoCamera) (s : ℕ × ℕ) : IsoCamera :=
  { c with screen_size := s }

/-- `IsoCamera::update_observation_point`
(src/camera/iso_camera.rs lines 27-30): stores the point and the direction
as supplied. -/
def update_observation_point (c : IsoCamera) (point direction : Vector3) : IsoCamera :=
  { c with observation_point := point, observation_direction := direction }

/-- `screen_top_left` agrees with what `recalculate` would derive from the
currently stored point, direction, orientation and size. -/
def consistent (c : IsoCamera) : Prop :=
  c.screen_top_left = c.recalculate.screen_top_left

instance (c : IsoCamera) : Decidable c.consistent := by
  unfold consistent; infer_instance

end IsoCamera

/-- `PerspectiveCamera` (src/camera/perspective_camera.rs lines 8-21). -/
structure PerspectiveCamera where
  fov : ℕ
  observation_point : Vector3
  observation_direction : Vector3
  orientation : Vector3
  screen_size : ℕ × ℕ
  screen_top_left : Vector3
  screen_distance : ℚ
deriving DecidableEq

namespace PerspectiveCamera

/-- `PerspectiveCamera::recalculate`
(src/camera/perspective_camera.rs lines 43-55).  The transcendental
`(fov.to_radians() / 2).tan()` is abstracted as the function `tanHalfRad`
from the fov in degrees to that tangent; everything else is transcribed
from the source. -/
def recalculate (tanHalfRad : ℕ → ℚ) (c : PerspectiveCamera) : PerspectiveCamera :=
  let sd := (c.screen_size.1 : ℚ) / (2 * tanHalfRad c.fov)
  let up := c.orientation
  let forward := c.observation_direction
  let left := up.cross c.observation_direction
  { c with
    screen_distance := sd,
    screen_top_left :=
      ((c.observation_point.add (left.smul ((c.screen_size.1 : ℚ) / 2))).add
          (up.smul ((c.screen_size.2 : ℚ) / 2))).add
        (forward.smul sd) }

/-- `PerspectiveCamera::update_screen_size`
(src/camera/perspective_camera.rs lines 24-27): stores the size, then
recalculates. -/
def update_screen_size (tanHalfRad : ℕ → ℚ) (c : PerspectiveCamera) (s : ℕ × ℕ) :
    PerspectiveCamera :=
  recalculate tanHalfRad { c with screen_size := s }

/-- `PerspectiveCamera::update_observation_point`
(src/camera/perspective_camera.rs lines 33-37): stores the point and the
direction as supplied, then recalculates. -/
def update_observation_point (tanHalfRad : ℕ → ℚ) (c : PerspectiveCamera)
    (point direction : Vector3) : PerspectiveCamera :=
  recalculate tanHalfRad
    { c with observation_point := point, observation_direction := direction }

/-- `screen_top_left` and `screen_distance` agree with what `recalculate`
would derive from the currently stored point, direction, orientation, size
and fov. -/
def consistent (tanHalfRad : ℕ → ℚ) (c : PerspectiveCamera) : Prop :=
  c.screen_top_left = (recalculate tanHalfRad c).screen_top_left ∧
    c.screen_distance = (recalculate tanHalfRad c).screen_distance

end PerspectiveCamera

/-- The blank style a reallocated cell carries (src/terminal.rs line 149). -/
def blank_style : Style := (' ', Color.Reset, Decor.None)

/-- A cell stamped with frame 7, for the concrete `pre_render` scenario. -/
def c6_cell : Character := ⟨7, blank_style, 0⟩

/-- A 2-column, 1-row terminal whose two cells are stamped with frame 7. -/
def c6_terminal : Terminal := ⟨2, 1, [c6_cell, c6_cell]⟩

/-- A concrete non-degenerate right triangle with vertices `(0,0,0)`,
`(4,0,0)`, `(0,4,0)` (shoelace area 8). -/
def c7_triangle : VertexTriple := (⟨0, 0, 0⟩, ⟨4, 0, 0⟩, ⟨0, 4, 0⟩)

/-- The spec's degenerate example: three collinear points
`(0,0,0), (1,0,0), (2,0,0)`. -/
def c8_triangle : VertexTriple := (⟨0, 0, 0⟩, ⟨1, 0, 0⟩, ⟨2, 0, 0⟩)

/-- A 1×1 terminal whose single cell is empty (sentinel frame 0). -/
def c9_terminal : Terminal := ⟨1, 1, [⟨0, blank_style, 0⟩]⟩

/-- An object with a single vertex at `x = 65536`, whose projected pixel
lies far outside a 1-cell-wide grid. -/
def c9_obj : WorldObj := ⟨[⟨65536, 0, 7⟩], [], blank_style, blank_style⟩

/-- An object with one vertex at the origin and one (degenerate) edge on
it, exercising both loops of `buffer_world_object`. -/
def c9_edge_obj : WorldObj := ⟨[⟨0, 0, 0⟩], [(0, 0)], blank_style, blank_style⟩

/-- A concrete isometric camera: point `(0,0,0)`, direction `(0,0,-1)`, up
`(0,1,0)`, screen `2×2`, with `screen_top_left` as `recalculate` derives it
for these inputs. -/
def c4_iso : IsoCamera :=
  ⟨⟨0, 0, 0⟩, ⟨0, 0, -1⟩, ⟨0, 1, 0⟩, (2, 2), ⟨-1, 1, -1⟩⟩

end Terminal3D

namespace Terminal3D

/-- C2: the source's vector product disagrees with the cross-product formula
`(ay·bz − az·by, az·bx − ax·bz, ax·by − ay·bx)` claimed by the spec: at
`a = (0,0,1)`, `b = (0,1,0)` the code returns `(-2, 0, 0)` while the claimed
formula yields `(-1, 0, 0)`. -/
theorem cross_product_eval_at_failing_input :
    Vector3.cross ⟨0, 0, 1⟩ ⟨0, 1, 0⟩ = ⟨-2, 0, 0⟩ ∧
    cross_spec_model ⟨0, 0, 1⟩ ⟨0, 1, 0⟩ = ⟨-1, 0, 0⟩ ∧
    Vector3.cross ⟨0, 0, 1⟩ ⟨0, 1, 0⟩ ≠ cross_spec_model ⟨0, 0, 1⟩ ⟨0, 1, 0⟩ := by
  refine ⟨?_, ?_, ?_⟩ <;>
    norm_num [Vector3.cross, cross_spec_model, Vector3.mk.injEq]

theorem bres_walk_length (emit : ℤ → ℤ → ℤ × ℤ) (dx dy : ℤ) (inc : ℚ) :
    ∀ (xs : List ℤ) (y err : ℤ) (depth : ℚ),
      (bres_walk emit dx dy inc xs y err depth).length = xs.length := by
  intro xs
  induction xs with
  | nil => intro y err depth; rfl
  | cons x rest ih =>
    intro y err depth
    rw [bres_walk, List.length_cons, List.length_cons]
    congr 1
    split
    · exact ih _ _ _
    · exact ih _ _ _

theorem bres_walk_depths (emit : ℤ → ℤ → ℤ × ℤ) (dx dy : ℤ) (inc : ℚ) :
    ∀ (xs : List ℤ) (y err : ℤ) (depth : ℚ),
      (bres_walk emit dx dy inc xs y err depth).map Prod.snd =
        (List.range xs.length).map (fun (k : ℕ) => depth + (k : ℚ) * inc) := by
  intro xs
  induction xs with
  | nil => intro y err depth; rfl
  | cons x rest ih =>
    intro y err depth
    rw [bres_walk]
    rw [List.length_cons, List.range_succ_eq_map, List.map_cons, List.map_cons, List.map_map]
    have htail :
        (if dx ≤ 2 * (err + |dy|) then
            bres_walk emit dx dy inc rest (y + dy.sign) (err + |dy| - dx) (depth + inc)
          else bres_walk emit dx dy inc rest y (err + |dy|) (depth + inc)).map Prod.snd =
          (List.range rest.length).map (fun (k : ℕ) => (depth + inc) + (k : ℚ) * inc) := by
      split
      · exact ih _ _ _
      · exact ih _ _ _
    rw [htail]
    congr 1
    · push_cast
      ring
    · apply List.map_congr_left
      intro k _
      simp only [Function.comp_apply]
      push_cast
      ring

theorem intRange_length (a b : ℤ) : (intRange a b).length = (b + 1 - a).toNat := by
  simp [intRange]

theorem rustRound_mono {a b : ℚ} (h : a ≤ b) : rustRound a ≤ rustRound b := by
  unfold rustRound
  split_ifs with h1 h2 h2
  · exact Int.floor_le_floor (by linarith)
  · linarith
  · have hl : -⌊-a + 1 / 2⌋ ≤ 0 := by
      have : (0 : ℤ) ≤ ⌊-a + 1 / 2⌋ := Int.floor_nonneg.mpr (by linarith)
      omega
    have hr : (0 : ℤ) ≤ ⌊b + 1 / 2⌋ := Int.floor_nonneg.mpr (by linarith)
    omega
  · have : ⌊-b + 1 / 2⌋ ≤ ⌊-a + 1 / 2⌋ := Int.floor_le_floor (by linarith)
    omega

theorem bres_canonical_x_le (s0 e0 : Vector3) :
    (bres_canonical s0 e0).1.x ≤ (bres_canonical s0 e0).2.x := by
  by_cases h1 : bres_steep s0 e0
  · by_cases h2 : e0.y < s0.y
    · simp only [bres_canonical, if_pos h1]
      rw [if_pos (show (Vector3.mk e0.y e0.x e0.z).x < (Vector3.mk s0.y s0.x s0.z).x from h2)]
      exact le_of_lt h2
    · simp only [bres_canonical, if_pos h1]
      rw [if_neg (show ¬ (Vector3.mk e0.y e0.x e0.z).x < (Vector3.mk s0.y s0.x s0.z).x from h2)]
      exact le_of_not_lt h2
  · by_cases h2 : e0.x < s0.x
    · simp only [bres_canonical, if_neg h1]
      rw [if_pos h2]
      exact le_of_lt h2
    · simp only [bres_canonical, if_neg h1]
      rw [if_neg h2]
      exact le_of_not_lt h2

theorem major_span_nonneg (s0 e0 : Vector3) : 0 ≤ major_span s0 e0 := by
  unfold major_span
  have := rustRound_mono (bres_canonical_x_le s0 e0)
  omega

theorem range_map_getLast (m : ℕ) (f : ℕ → ℚ) :
    ((List.range (m + 1)).map f).getLast? = some (f m) := by
  rw [List.range_succ, List.map_append, List.map_singleton, List.getLast?_concat]

/-- C3 amended: the line rasterizer emits exactly `span + 1` samples, where
`span ≥ 0` is the rounded major-axis span of the canonicalized walk; the
k-th sample's depth is `start.z + k·(dz/span)` (linear interpolation from
the walk's starting z); and whenever `span ≥ 1` the final sample's depth is
exactly the canonical endpoint's z.  (When `span = 0` the single emitted
sample carries the canonical start's z instead.) -/
theorem bresenham_sample_count_depths (s0 e0 : Vector3) :
    0 ≤ major_span s0 e0 ∧
    (bresenham_line_3d s0 e0).length = (major_span s0 e0).toNat + 1 ∧
    (bresenham_line_3d s0 e0).map Prod.snd =
      (List.range ((major_span s0 e0).toNat + 1)).map
        (fun (k : ℕ) => (bres_canonical s0 e0).1.z +
          (k : ℚ) *
            (((bres_canonical s0 e0).2.z - (bres_canonical s0 e0).1.z) /
              ((major_span s0 e0 : ℤ) : ℚ))) ∧
    (1 ≤ major_span s0 e0 →
      ((bresenham_line_3d s0 e0).map Prod.snd).getLast? =
        some (bres_canonical s0 e0).2.z) := by
  have hspan : 0 ≤ major_span s0 e0 := major_span_nonneg s0 e0
  have hlen : (intRange (rustRound (bres_canonical s0 e0).1.x)
      (rustRound (bres_canonical s0 e0).2.x)).length = (major_span s0 e0).toNat + 1 := by
    rw [intRange_length]
    unfold major_span at hspan ⊢
    omega
  have hlength : (bresenham_line_3d s0 e0).length = (major_span s0 e0).toNat + 1 := by
    unfold bresenham_line_3d
    rw [bres_walk_length, hlen]
  have hdepths : (bresenham_line_3d s0 e0).map Prod.snd =
      (List.range ((major_span s0 e0).toNat + 1)).map
        (fun (k : ℕ) => (bres_canonical s0 e0).1.z +
          (k : ℚ) *
            (((bres_canonical s0 e0).2.z - (bres_canonical s0 e0).1.z) /
              ((major_span s0 e0 : ℤ) : ℚ))) := by
    unfold bresenham_line_3d
    rw [bres_walk_depths, hlen]
    rfl
  refine ⟨hspan, hlength, hdepths, ?_⟩
  intro h1
  rw [hdepths, range_map_getLast]
  have hq : ((major_span s0 e0 : ℤ) : ℚ) ≠ 0 := by
    have : (1 : ℚ) ≤ ((major_span s0 e0 : ℤ) : ℚ) := by
      exact_mod_cast h1
    linarith
  have hcast : (((major_span s0 e0).toNat : ℕ) : ℚ) = ((major_span s0 e0 : ℤ) : ℚ) := by
    have : ((major_span s0 e0).toNat : ℤ) = major_span s0 e0 := Int.toNat_of_nonneg hspan
    exact_mod_cast this
  rw [hcast]
  congr 1
  field_simp

/-- C3 counterexample: for the segment from `(0,0,0)` to `(0,0,10)` the
rounded major-axis span is 0, a single sample is emitted, and its depth is
the start's z (0), not the z of the endpoint the canonicalized walk
terminates at (10) — the claimed final-depth snapping does not hold. -/
theorem bresenham_zero_span_final_depth :
    bresenham_line_3d ⟨0, 0, 0⟩ ⟨0, 0, 10⟩ = [((0, 0), 0)] ∧
    (bres_canonical ⟨0, 0, 0⟩ ⟨0, 0, 10⟩).2.z = 10 ∧ ((0 : ℚ) ≠ 10) := by
  refine ⟨?_, ?_, by norm_num⟩
  · norm_num [bresenham_line_3d, bres_canonical, bres_steep, rustRound, intRange,
      show List.range 1 = [0] from rfl, bres_walk]
  · norm_num [bres_canonical, bres_steep]

/-- C3 witness: `bresenham_line_3d((0,0,0),(4,0,10))` emits 5 samples and
its final depth is exactly 10. -/
theorem bresenham_sample_count_depths_witness :
    (bresenham_line_3d ⟨0, 0, 0⟩ ⟨4, 0, 10⟩).length = 5 ∧
    ((bresenham_line_3d ⟨0, 0, 0⟩ ⟨4, 0, 10⟩).map Prod.snd).getLast? = some 10 := by
  have h := bresenham_sample_count_depths ⟨0, 0, 0⟩ ⟨4, 0, 10⟩
  have hspan : major_span ⟨0, 0, 0⟩ ⟨4, 0, 10⟩ = 4 := by
    norm_num [major_span, bres_canonical, bres_steep, rustRound]
  have hz : (bres_canonical (⟨0, 0, 0⟩ : Vector3) ⟨4, 0, 10⟩).2.z = 10 := by
    norm_num [bres_canonical, bres_steep]
  constructor
  · rw [h.2.1, hspan]
    rfl
  · rw [h.2.2.2 (by rw [hspan]; norm_num), hz]

theorem mem_intRange {x a b : ℤ} : x ∈ intRange a b ↔ a ≤ x ∧ x ≤ b := by
  simp only [intRange, List.mem_map, List.mem_range]
  constructor
  · rintro ⟨i, hi, rfl⟩
    omega
  · rintro ⟨h1, h2⟩
    exact ⟨(x - a).toNat, by omega, by omega⟩

/-- C7: for a triangle the source treats as non-degenerate, the box-scan
phase of `bounding_box_triangle_3d` emits a sample `((x, y), d)` exactly
when `(x, y)` lies in the rounded bounding box, the acceptance test (all
three barycentric weights non-negative at the point and at all four
half-pixel-offset corners) passes, and `d` is the barycentric interpolation
of the vertex depths; and on such a triangle the full rasterizer is the box
scan followed by the three rasterized edges. -/
theorem bounding_box_scan_characterization (v : VertexTriple)
    (h : f64Epsilon ≤ |get_triangle_area v|) :
    (bounding_box_triangle_3d v =
      box_scan v ++ bresenham_line_3d v.1 v.2.1 ++ bresenham_line_3d v.2.1 v.2.2 ++
        bresenham_line_3d v.2.2 v.1) ∧
    ∀ (x y : ℤ) (d : ℚ), ((x, y), d) ∈ box_scan v ↔
      (rustRound (sort_by_y v).1.y ≤ y ∧ y ≤ rustRound (sort_by_y v).2.2.y ∧
        rustRound (sort_by_x v).1.x ≤ x ∧ x ≤ rustRound (sort_by_x v).2.2.x ∧
        box_accept x y v (get_triangle_area v) ∧ d = box_depth x y v (get_triangle_area v)) := by
  constructor
  · unfold bounding_box_triangle_3d
    rw [if_neg (not_lt.mpr h)]
  · intro x y d
    simp only [box_scan, List.mem_flatMap, List.mem_filterMap]
    constructor
    · rintro ⟨y', hy', x', hx', hif⟩
      by_cases hacc : box_accept x' y' v (get_triangle_area v)
      · rw [if_pos hacc] at hif
        simp only [Option.some.injEq, Prod.mk.injEq] at hif
        obtain ⟨⟨hx, hy⟩, hd⟩ := hif
        subst hx
        subst hy
        rcases mem_intRange.mp hy' with ⟨h1, h2⟩
        rcases mem_intRange.mp hx' with ⟨h3, h4⟩
        exact ⟨h1, h2, h3, h4, hacc, hd.symm⟩
      · rw [if_neg hacc] at hif
        exact absurd hif (Option.noConfusion)
    · rintro ⟨h1, h2, h3, h4, hacc, hd⟩
      exact ⟨y, mem_intRange.mpr ⟨h1, h2⟩, x, mem_intRange.mpr ⟨h3, h4⟩,
        by rw [if_pos hacc, hd]⟩

/-- C7 witness: on the concrete triangle `(0,0,0),(4,0,0),(0,4,0)` the
characterization applies, and yields that the interior pixel `(1,1)` is
emitted with the interpolated depth 0. -/
theorem bounding_box_scan_characterization_witness :
    f64Epsilon ≤ |get_triangle_area c7_triangle| ∧
    (((1 : ℤ), (1 : ℤ)), (0 : ℚ)) ∈ box_scan c7_triangle := by
  have harea : f64Epsilon ≤ |get_triangle_area c7_triangle| := by
    norm_num [f64Epsilon, get_triangle_area, c7_triangle]
  refine ⟨harea, ((bounding_box_scan_characterization c7_triangle harea).2 1 1 0).mpr
    ⟨?_, ?_, ?_, ?_, ?_, ?_⟩⟩
  · norm_num [sort_by_y, c7_triangle, rustRound]
  · norm_num [sort_by_y, c7_triangle, rustRound]
  · norm_num [sort_by_x, c7_triangle, rustRound]
  · norm_num [sort_by_x, c7_triangle, rustRound]
  · norm_num [box_accept, bary_nonneg, get_bary_weights, get_triangle_area, c7_triangle]
  · norm_num [box_depth, get_bary_weights, get_triangle_area, c7_triangle]

/-- C8: a triangle whose shoelace area has absolute value below machine
epsilon makes `bounding_box_triangle_3d` emit no samples at all. -/
theorem degenerate_triangle_no_samples (v : VertexTriple)
    (h : |get_triangle_area v| < f64Epsilon) :
    bounding_box_triangle_3d v = [] := by
  unfold bounding_box_triangle_3d
  rw [if_pos h]

/-- C8 witness: the collinear triple `(0,0,0),(1,0,0),(2,0,0)` has area 0
and rasterizes to no samples. -/
theorem degenerate_triangle_no_samples_witness :
    |get_triangle_area c8_triangle| < f64Epsilon ∧
    bounding_box_triangle_3d c8_triangle = [] :=
  ⟨by norm_num [get_triangle_area, c8_triangle, f64Epsilon],
    degenerate_triangle_no_samples c8_triangle
      (by norm_num [get_triangle_area, c8_triangle, f64Epsilon])⟩

/-- C1: `plot_character` overwrites the addressed cell exactly when the
stored frame stamp differs from the incoming frame id or the stored depth
is strictly greater than the incoming depth; all other cells are untouched;
a same-frame write at equal-or-greater depth leaves the terminal unchanged;
and a write with a differing frame stamp always lands. -/
theorem plot_character_depth_test (t : Terminal) (x y : ℕ) (depth : ℚ) (style : Style)
    (frame : ℕ) (c : Character)
    (h : t.display[y / 2 * t.termWidth + x]? = some c) :
    ∃ t', t.plot_character x y depth style frame = some t' ∧
      t'.display[y / 2 * t.termWidth + x]? =
        some (if c.frame ≠ frame ∨ depth < c.dist then Character.mk frame style depth else c) ∧
      (∀ j, j ≠ y / 2 * t.termWidth + x → t'.display[j]? = t.display[j]?) ∧
      (c.frame = frame → c.dist ≤ depth → t' = t) ∧
      (c.frame ≠ frame →
        t'.display[y / 2 * t.termWidth + x]? = some (Character.mk frame style depth)) := by
  have hlt : y / 2 * t.termWidth + x < t.display.length := by
    rcases List.getElem?_eq_some.mp h with ⟨hl, _⟩
    exact hl
  by_cases hc : c.frame ≠ frame ∨ depth < c.dist
  · refine ⟨{ t with display :=
        t.display.set (y / 2 * t.termWidth + x) (Character.mk frame style depth) },
        ?_, ?_, ?_, ?_, ?_⟩
    · simp only [Terminal.plot_character, h]
      rw [if_pos hc]
    · rw [if_pos hc]
      simp [List.getElem?_set, hlt]
    · intro j hj
      exact List.getElem?_set_ne (Ne.symm hj)
    · intro h1 h2
      rcases hc with h3 | h3
      · exact absurd h1 h3
      · exact absurd h2 (not_le.mpr h3)
    · intro _
      simp [List.getElem?_set, hlt]
  · refine ⟨t, ?_, ?_, ?_, ?_, ?_⟩
    · simp only [Terminal.plot_character, h]
      rw [if_neg hc]
    · rw [if_neg hc]
      exact h
    · intro j _
      rfl
    · intro _ _
      rfl
    · intro hf
      exact absurd (Or.inl hf) hc

/-- C1 witness: a concrete 1×1 terminal whose single cell holds frame 1 at
depth 5; a frame-1 write at depth 3 overwrites it. -/
theorem plot_character_depth_test_witness :
    ∃ t', Terminal.plot_character ⟨1, 1, [⟨1, blank_style, 5⟩]⟩ 0 0 3 blank_style 1 = some t' ∧
      t'.display[0 / 2 * (1 : ℕ) + 0]? =
        some (if (Character.mk 1 blank_style 5).frame ≠ 1 ∨ (3 : ℚ) < (Character.mk 1 blank_style 5).dist
          then Character.mk 1 blank_style 3 else Character.mk 1 blank_style 5) ∧
      (∀ j, j ≠ 0 / 2 * (1 : ℕ) + 0 →
        t'.display[j]? = (Terminal.mk 1 1 [⟨1, blank_style, 5⟩]).display[j]?) ∧
      ((Character.mk 1 blank_style 5).frame = 1 → (Character.mk 1 blank_style 5).dist ≤ (3 : ℚ) →
        t' = ⟨1, 1, [⟨1, blank_style, 5⟩]⟩) ∧
      ((Character.mk 1 blank_style 5).frame ≠ 1 →
        t'.display[0 / 2 * (1 : ℕ) + 0]? = some (Character.mk 1 blank_style 3)) :=
  plot_character_depth_test ⟨1, 1, [⟨1, blank_style, 5⟩]⟩ 0 0 3 blank_style 1
    ⟨1, blank_style, 5⟩ rfl

/-- C6: the `pre_render` size test compares the stored height with both the
polled rows and the polled cols; on a 2-column, 1-row terminal polled at the
unchanged size `(rows, cols) = (1, 2)` it therefore reallocates the grid and
resets every frame stamp to the sentinel 0, although the claim requires the
cells to be left unchanged when the dimensions are equal. -/
theorem pre_render_equal_dims_resets :
    c6_terminal.termHeight = 1 ∧ c6_terminal.termWidth = 2 ∧
    (Terminal.pre_render c6_terminal 1 2).display.map Character.frame = [0, 0] ∧
    c6_terminal.display.map Character.frame = [7, 7] ∧
    (Terminal.pre_render c6_terminal 1 2).display.map Character.frame ≠
      c6_terminal.display.map Character.frame := by
  refine ⟨rfl, rfl, ?_, rfl, ?_⟩
  · simp [Terminal.pre_render, c6_terminal, List.replicate]
  · simp [Terminal.pre_render, c6_terminal, c6_cell, List.replicate]

/-- C4 counterexample: the isometric camera's `update_screen_size` stores
the new size without recomputing `screen_top_left`: the concrete camera
`c4_iso` is consistent, but after `update_screen_size (4, 4)` its stored
`screen_top_left` no longer matches what its parameters derive. -/
theorem iso_camera_mutator_stale_top_left :
    c4_iso.consistent ∧ ¬ (c4_iso.update_screen_size (4, 4)).consistent := by
  constructor
  · norm_num [IsoCamera.consistent, IsoCamera.recalculate, IsoCamera.update_screen_size,
      c4_iso, Vector3.cross, Vector3.smul, Vector3.add, Vector3.mk.injEq]
  · norm_num [IsoCamera.consistent, IsoCamera.recalculate, IsoCamera.update_screen_size,
      c4_iso, Vector3.cross, Vector3.smul, Vector3.add, Vector3.mk.injEq]

/-- C4 amended: the perspective camera's mutators recalculate the derived
state themselves, so consistency holds after them for every abstracted
tangent function; the isometric camera's mutators store the new inputs and
leave `screen_top_left` untouched, so `recalculate` must be invoked
separately before projecting. -/
theorem camera_mutators_recalc_behavior :
    (∀ (tanHalfRad : ℕ → ℚ) (c : PerspectiveCamera) (s : ℕ × ℕ),
      (PerspectiveCamera.update_screen_size tanHalfRad c s).consistent tanHalfRad) ∧
    (∀ (tanHalfRad : ℕ → ℚ) (c : PerspectiveCamera) (p d : Vector3),
      (PerspectiveCamera.update_observation_point tanHalfRad c p d).consistent tanHalfRad) ∧
    (∀ (c : IsoCamera) (s : ℕ × ℕ),
      (c.update_screen_size s).screen_top_left = c.screen_top_left) ∧
    (∀ (c : IsoCamera) (p d : Vector3),
      (c.update_observation_point p d).screen_top_left = c.screen_top_left) :=
  ⟨fun _ _ _ => ⟨rfl, rfl⟩, fun _ _ _ _ => ⟨rfl, rfl⟩, fun _ _ => rfl, fun _ _ _ => rfl⟩

/-- C5 counterexample: `update_observation_point` stores the supplied
direction verbatim: passing `(0,0,-2)` leaves a stored direction of squared
magnitude 4, whereas the normalization of the supplied direction would have
squared magnitude 1, so the stored vector is not that normalization. -/
theorem update_observation_point_not_normalized :
    (c4_iso.update_observation_point ⟨0, 0, 0⟩ ⟨0, 0, -2⟩).observation_direction =
      ⟨0, 0, -2⟩ ∧
    Vector3.dot ⟨0, 0, -2⟩ ⟨0, 0, -2⟩ = 4 ∧ (4 : ℚ) ≠ 1 := by
  refine ⟨rfl, ?_, ?_⟩
  · norm_num [Vector3.dot]
  · norm_num

theorem plot_sample_out_of_bounds (t : Terminal) (p : ℤ × ℤ) (d : ℚ) (st : Style) (f : ℕ)
    (h : ¬ t.is_in_bounds p.1 p.2) : t.plot_sample p d st f = some t := by
  unfold Terminal.plot_sample
  rw [if_neg h]

theorem plot_sample_in_bounds (t : Terminal) (p : ℤ × ℤ) (d : ℚ) (st : Style) (f : ℕ)
    (h : t.is_in_bounds p.1 p.2) :
    t.plot_sample p d st f =
      t.plot_character (p.1.toNat % 65536) (p.2.toNat % 65536) d st f := by
  unfold Terminal.plot_sample
  rw [if_pos h]

theorem plot_character_some (t : Terminal) (x y : ℕ) (d : ℚ) (st : Style) (f : ℕ)
    (hx : x < t.termWidth) (hy : y / 2 < t.termHeight)
    (hsize : t.display.length = t.termHeight * t.termWidth) :
    ∃ t', t.plot_character x y d st f = some t' ∧ t'.termWidth = t.termWidth ∧
      t'.termHeight = t.termHeight ∧ t'.display.length = t.display.length := by
  have hidx : y / 2 * t.termWidth + x < t.display.length := by
    rw [hsize]
    calc y / 2 * t.termWidth + x < y / 2 * t.termWidth + t.termWidth := by omega
    _ = (y / 2 + 1) * t.termWidth := by ring
    _ ≤ t.termHeight * t.termWidth := Nat.mul_le_mul_right _ (by omega)
  have hget : t.display[y / 2 * t.termWidth + x]? =
      some (t.display.get ⟨y / 2 * t.termWidth + x, hidx⟩) := by
    rw [List.getElem?_eq_getElem hidx]
    rfl
  unfold Terminal.plot_character
  simp only [hget]
  split
  · exact ⟨_, rfl, rfl, rfl, by simp⟩
  · exact ⟨t, rfl, rfl, rfl, rfl⟩

theorem plot_sample_some (t u : Terminal) (p : ℤ × ℤ) (d : ℚ) (st : Style) (f : ℕ)
    (hsize : t.display.length = t.termHeight * t.termWidth)
    (hu : u.termWidth = t.termWidth ∧ u.termHeight = t.termHeight ∧
      u.display.length = t.display.length) :
    ∃ u', u.plot_sample p d st f = some u' ∧ u'.termWidth = t.termWidth ∧
      u'.termHeight = t.termHeight ∧ u'.display.length = t.display.length := by
  obtain ⟨hw, hh, hl⟩ := hu
  by_cases hb : u.is_in_bounds p.1 p.2
  · rw [plot_sample_in_bounds _ _ _ _ _ hb]
    obtain ⟨hx0, hxw, hy0, hyh⟩ := hb
    have husize : u.display.length = u.termHeight * u.termWidth := by
      rw [hw, hh, hl, hsize]
    have hy2 : p.2.toNat % 65536 / 2 < u.termHeight := by
      have h1 : p.2.toNat % 65536 ≤ p.2.toNat := Nat.mod_le _ _
      have h2 : p.2.toNat < 2 * u.termHeight := by omega
      omega
    obtain ⟨u', h1, h2, h3, h4⟩ :=
      plot_character_some u (p.1.toNat % 65536) (p.2.toNat % 65536) d st f hxw hy2 husize
    exact ⟨u', h1, by rw [h2, hw], by rw [h3, hh], by rw [h4, hl]⟩
  · rw [plot_sample_out_of_bounds _ _ _ _ _ hb]
    exact ⟨u, rfl, hw, hh, hl⟩

theorem foldlM_option_inv {α : Type} (P : Terminal → Prop) (f : Terminal → α → Option Terminal)
    (l : List α) (hf : ∀ u a, P u → a ∈ l → ∃ u', f u a = some u' ∧ P u') :
    ∀ u : Terminal, P u → ∃ u', l.foldlM f u = some u' ∧ P u' := by
  induction l with
  | nil =>
    intro u hu
    exact ⟨u, rfl, hu⟩
  | cons a rest ih =>
    intro u hu
    obtain ⟨u1, h1, hu1⟩ := hf u a hu (List.mem_cons_self a rest)
    have ihr := ih (fun v b hv hb => hf v b hv (List.mem_cons_of_mem a hb)) u1 hu1
    obtain ⟨u', h2, hu'⟩ := ihr
    refine ⟨u', ?_, hu'⟩
    rw [List.foldlM_cons, h1]
    exact h2

/-- C9 amended: on a terminal whose grid is sized to its dimensions and an
object whose edges index existing vertices, `buffer_world_object` never
fails and preserves the grid dimensions; a sample is discarded (leaving the
terminal untouched) exactly when it fails the source's bounds check — which
compares the x pixel modulo 65536 (the `as u16` cast) against the width, so
pixels at `x ≥ 65536` can alias back onto the grid — and a sample passing
that check is written through `plot_character` at the truncated
coordinates. -/
theorem buffer_world_object_total_and_discard (t : Terminal) (proj : Vector3 → Vector3)
    (obj : WorldObj) (frame : ℕ)
    (hsize : t.display.length = t.termHeight * t.termWidth)
    (hedges : ∀ e ∈ obj.edges, e.1 < obj.vertices.length ∧ e.2 < obj.vertices.length) :
    (∃ t', t.buffer_world_object proj obj frame = some t' ∧
      t'.termWidth = t.termWidth ∧ t'.termHeight = t.termHeight ∧
      t'.display.length = t.display.length) ∧
    (∀ (u : Terminal) (p : ℤ × ℤ) (d : ℚ) (st : Style) (f : ℕ),
      ¬ u.is_in_bounds p.1 p.2 → u.plot_sample p d st f = some u) ∧
    (∀ (u : Terminal) (p : ℤ × ℤ) (d : ℚ) (st : Style) (f : ℕ),
      u.is_in_bounds p.1 p.2 →
        u.plot_sample p d st f =
          u.plot_character (p.1.toNat % 65536) (p.2.toNat % 65536) d st f) := by
  refine ⟨?_, fun u p d st f h => plot_sample_out_of_bounds u p d st f h,
    fun u p d st f h => plot_sample_in_bounds u p d st f h⟩
  have hsample : ∀ (u : Terminal) (p : ℤ × ℤ) (d : ℚ) (st : Style) (f : ℕ),
      (u.termWidth = t.termWidth ∧ u.termHeight = t.termHeight ∧
        u.display.length = t.display.length) →
      ∃ u', u.plot_sample p d st f = some u' ∧ u'.termWidth = t.termWidth ∧
        u'.termHeight = t.termHeight ∧ u'.display.length = t.display.length :=
    fun u p d st f hu => plot_sample_some t u p d st f hsize hu
  obtain ⟨t1, h1, hP1⟩ := foldlM_option_inv
    (fun u => u.termWidth = t.termWidth ∧ u.termHeight = t.termHeight ∧
      u.display.length = t.display.length)
    (fun acc v => Terminal.plot_sample acc (rustRound (proj v).x, rustRound (proj v).y)
      (proj v).z obj.vertex_style frame)
    obj.vertices
    (fun u a hu _ => hsample u _ _ _ _ hu)
    t ⟨rfl, rfl, rfl⟩
  obtain ⟨t2, h2, hP2⟩ := foldlM_option_inv
    (fun u => u.termWidth = t.termWidth ∧ u.termHeight = t.termHeight ∧
      u.display.length = t.display.length)
    (fun acc e =>
      match obj.vertices[e.1]?, obj.vertices[e.2]? with
      | some a, some b =>
        (bresenham_line_3d (proj a) (proj b)).foldlM
          (fun acc2 s => Terminal.plot_sample acc2 s.1 s.2 obj.edge_style frame) acc
      | _, _ => none)
    obj.edges
    (by
      intro u e hu he
      obtain ⟨he1, he2⟩ := hedges e he
      have hv1 : obj.vertices[e.1]? = some (obj.vertices.get ⟨e.1, he1⟩) := by
        rw [List.getElem?_eq_getElem he1]
        rfl
      have hv2 : obj.vertices[e.2]? = some (obj.vertices.get ⟨e.2, he2⟩) := by
        rw [List.getElem?_eq_getElem he2]
        rfl
      simp only [hv1, hv2]
      exact foldlM_option_inv _ _ _ (fun u2 a hu2 _ => hsample u2 _ _ _ _ hu2) u hu)
    t1 hP1
  refine ⟨t2, ?_, hP2.1, hP2.2.1, hP2.2.2⟩
  unfold Terminal.buffer_world_object
  rw [h1]
  exact h2

/-- C9 witness: on a concrete sized 1×1 terminal and an object with one
vertex and one degenerate edge, the amended statement applies. -/
theorem buffer_world_object_total_and_discard_witness :
    (∃ t', c9_terminal.buffer_world_object (fun v => v) c9_edge_obj 1 = some t' ∧
      t'.termWidth = c9_terminal.termWidth ∧ t'.termHeight = c9_terminal.termHeight ∧
      t'.display.length = c9_terminal.display.length) ∧
    (∀ (u : Terminal) (p : ℤ × ℤ) (d : ℚ) (st : Style) (f : ℕ),
      ¬ u.is_in_bounds p.1 p.2 → u.plot_sample p d st f = some u) ∧
    (∀ (u : Terminal) (p : ℤ × ℤ) (d : ℚ) (st : Style) (f : ℕ),
      u.is_in_bounds p.1 p.2 →
        u.plot_sample p d st f =
          u.plot_character (p.1.toNat % 65536) (p.2.toNat % 65536) d st f) :=
  buffer_world_object_total_and_discard c9_terminal (fun v => v) c9_edge_obj 1 rfl
    (by
      intro e he
      simp only [c9_edge_obj, List.mem_singleton] at he
      subst he
      exact ⟨Nat.zero_lt_one, Nat.zero_lt_one⟩)

/-- C9 counterexample: the bounds check truncates the x pixel with an
`as u16` cast, so the vertex projected to pixel `(65536, 0)` — far outside
the 1-column grid — is not discarded: it overwrites the cell at column
`65536 % 65536 = 0`, changing the buffer. -/
theorem buffer_world_object_truncation_aliasing :
    (Terminal.buffer_world_object c9_terminal (fun v => v) c9_obj 1).map
        (fun r => r.display.map Character.frame) = some [1] ∧
    c9_terminal.display.map Character.frame = [0] ∧
    ¬ (rustRound (65536 : ℚ) < (c9_terminal.termWidth : ℤ)) := by
  refine ⟨?_, rfl, ?_⟩
  · norm_num [Terminal.buffer_world_object, c9_terminal, c9_obj, Terminal.plot_sample,
      Terminal.is_in_bounds, Terminal.plot_character, rustRound, blank_style,
      show Int.toNat 65536 % 65536 = 0 from rfl]
  · norm_num [rustRound, c9_terminal]

/-- C10: `render` serializes the grid without modifying it — the terminal
state it returns has the same cells and dimensions — so rendering twice
with no intervening writes emits the same character stream. -/
theorem render_preserves_buffer (t : Terminal) :
    (t.render).1.display = t.display ∧ (t.render).1.termWidth = t.termWidth ∧
    (t.render).1.termHeight = t.termHeight ∧ ((t.render).1.render).2 = (t.render).2 :=
  ⟨rfl, rfl, rfl, rfl⟩

/-- C5 amended: for both camera variants, `update_observation_point` stores
the supplied direction exactly as given (normalization happens only in the
constructors), so callers must pre-normalize. -/
theorem update_observation_point_stores_direction :
    (∀ (c : IsoCamera) (p d : Vector3),
      (c.update_observation_point p d).observation_direction = d) ∧
    (∀ (tanHalfRad : ℕ → ℚ) (c : PerspectiveCamera) (p d : Vector3),
      (PerspectiveCamera.update_observation_point tanHalfRad c p d).observation_direction = d) :=
  ⟨fun _ _ _ => rfl, fun _ _ _ _ => rfl⟩

end Terminal3D
